import Mathlib

/-!
Verification of the gb-sort repository's latitude-boundary pipeline.

This file gives a shallow embedding of the core of the repository:
the `midpoint_t` record and the `std::inplace_merge` call with its
comparator, the `fill_midpoints` boundary builder, the `Area` record
(string parsing, `operator==`, predicates), the grid variants
(`OGrid`, `FGrid`, `LLGrid`) with their row point counts and center
latitudes, and the `Grid::build` factories (both the Area-carrying
variant and the one in gb-sort.cc, whose lon-lat regex differs).

C++ `double` values are modelled as exact rationals (`ℚ`): every
quantity the program computes (midpoints, linear spacings, the
Gaussian latitude approximation) is a rational-valued expression, and
the claims under study concern its exact arithmetic structure.
C++ `assert` failures and the `throw` in the factories are modelled
with `Option`/`Except` results, the error constructors following the
specification's taxonomy.
-/

/-- Embedding of `midpoint_t { double x; int i; }`: a latitude value
tagged with an origin label (0 = source grid, 1 = target grid). -/
structure Midpoint where
  x : ℚ
  i : ℤ
deriving DecidableEq

/-- The comparator lambda passed to `std::inplace_merge`:
`a.x > b.x || (a.x == b.x && a.i < b.i)`, read as "a sorts strictly
before b" (descending latitude, source label first on ties). -/
def midLt (a b : Midpoint) : Prop :=
  b.x < a.x ∨ (a.x = b.x ∧ a.i < b.i)

instance (a b : Midpoint) : Decidable (midLt a b) :=
  inferInstanceAs (Decidable (b.x < a.x ∨ (a.x = b.x ∧ a.i < b.i)))

/-- Embedding of `std::inplace_merge(first, mid, last, cmp)` acting on
the two sorted runs as lists: the stable merge that takes from the
second run only when its head sorts strictly before the first run's
head under the comparator. -/
def inplaceMerge : List Midpoint → List Midpoint → List Midpoint
  | [], t => t
  | s, [] => s
  | a :: s, b :: t =>
    if midLt b a then b :: inplaceMerge (a :: s) t
    else a :: inplaceMerge s (b :: t)
termination_by s t => s.length + t.length
decreasing_by
  all_goals simp [List.length_cons]

/-- Embedding of `fill_midpoints` (part_002, lines 75-89): with
`dx = (points[1] - points.front()) / 2` it writes `x - dx` for every
point, overwrites the first slot with the North limit `a`, and appends
the South limit `b`, all tagged with `label`.  The C++ asserts
`1 < points.size()`; shorter inputs are mapped to `[]`. -/
def fillMidpoints (points : List ℚ) (a b : ℚ) (label : ℤ) : List Midpoint :=
  match points with
  | p0 :: p1 :: rest =>
    ⟨a, label⟩ :: ((p1 :: rest).map fun x => ⟨x - (p1 - p0) / 2, label⟩) ++ [⟨b, label⟩]
  | _ => []

/-- Embedding of `struct Area : std::array<double, 4>` with accessors
N/W/S/E. -/
structure Area where
  N : ℚ
  W : ℚ
  S : ℚ
  E : ℚ
deriving DecidableEq

/-- The `Area::check` asserts: `-90 <= S && S <= N && N <= 90` and
`W <= E && E <= W + 360`. -/
def Area.check (a : Area) : Prop :=
  -90 ≤ a.S ∧ a.S ≤ a.N ∧ a.N ≤ 90 ∧ a.W ≤ a.E ∧ a.E ≤ a.W + 360

instance (a : Area) : Decidable a.check :=
  inferInstanceAs (Decidable (-90 ≤ a.S ∧ a.S ≤ a.N ∧ a.N ≤ 90 ∧ a.W ≤ a.E ∧ a.E ≤ a.W + 360))

/-- `Area::operator==`: component-wise equality on N, W, S, E. -/
def Area.eqOp (a b : Area) : Prop :=
  a.N = b.N ∧ a.W = b.W ∧ a.S = b.S ∧ a.E = b.E

instance (a b : Area) : Decidable (Area.eqOp a b) :=
  inferInstanceAs (Decidable (a.N = b.N ∧ a.W = b.W ∧ a.S = b.S ∧ a.E = b.E))

/-- `Area::includesNorthPole`: `N() == 90.`. -/
def Area.includesNorthPole (a : Area) : Prop := a.N = 90

/-- `Area::includesSouthPole`: `S() == -90.`. -/
def Area.includesSouthPole (a : Area) : Prop := a.S = -90

/-- `Area::isPeriodicWestEast`: `E() == W() + 360.`. -/
def Area.isPeriodicWestEast (a : Area) : Prop := a.E = a.W + 360

/-- `Area::isGlobal`: all three pole/periodicity predicates. -/
def Area.isGlobal (a : Area) : Prop :=
  a.includesNorthPole ∧ a.includesSouthPole ∧ a.isPeriodicWestEast

/-- The constant `GLOBE = Area(GLOBE_STR)`, where `GLOBE_STR` is the
global-area string with fields N=90, W=0, S=-90, E=360 (the value is
given directly; theorem `C8_area_roundtrip` checks the string parse
against it). -/
def GLOBE : Area := ⟨90, 0, -90, 360⟩

/-- `[0-9]` character test, as in the regexes' digit classes. -/
def isDigit (c : Char) : Bool :=
  decide ('0' ≤ c) && decide (c ≤ '9')

/-- `[1-9]` character test, the leading digit of `([1-9][0-9]*)`. -/
def isNonzeroDigit (c : Char) : Bool :=
  decide ('1' ≤ c) && decide (c ≤ '9')

/-- Numeric value of a digit character. -/
def digitVal (c : Char) : ℕ := c.toNat - '0'.toNat

/-- Value of a digit string, as `std::stol`/`std::stod` read an
integer part. -/
def natOfDigits (ds : List Char) : ℕ :=
  ds.foldl (fun n c => 10 * n + digitVal c) 0

/-- Full match of the capture group `([1-9][0-9]*)` together with the
`std::stol` conversion of the matched text. -/
def matchPosInt (cs : List Char) : Option ℕ :=
  match cs with
  | [] => none
  | c :: rest =>
    if isNonzeroDigit c && rest.all isDigit then some (natOfDigits (c :: rest)) else none

/-- Full match of `[Oo]([1-9][0-9]*)` / `[Ff]([1-9][0-9]*)`: a leading
character from the class, then the positive-integer group. -/
def matchGauss (letters : List Char) (cs : List Char) : Option ℕ :=
  match cs with
  | [] => none
  | c :: rest => if c ∈ letters then matchPosInt rest else none

/-- Match of `([1-9][0-9]*)x([1-9][0-9]*)` against the remainder after
the leading letter(s): the first group is the maximal digit run before
the `x` (equivalent to the regex, since `x` is not a digit). -/
def matchDimsBody (rest : List Char) : Option (ℕ × ℕ) :=
  match rest.dropWhile isDigit with
  | 'x' :: ds2 =>
    match matchPosInt (rest.takeWhile isDigit), matchPosInt ds2 with
    | some ni, some nj => some (ni, nj)
    | _, _ => none
  | _ => none

/-- Full match of the Area-carrying variants' lon-lat regex
`LL([1-9][0-9]*)x([1-9][0-9]*)`. -/
def matchLL (cs : List Char) : Option (ℕ × ℕ) :=
  match cs with
  | 'L' :: 'L' :: rest => matchDimsBody rest
  | _ => none

/-- Full match of gb-sort.cc's lon-lat regex
`[L]([1-9][0-9]*)x([1-9][0-9]*)` (a single leading `L`). -/
def matchGBLL (cs : List Char) : Option (ℕ × ℕ) :=
  match cs with
  | 'L' :: rest => matchDimsBody rest
  | _ => none

/-- A decimal-integer parameter string whose value is zero or
negative: either a run of digits denoting 0, or a '-' sign followed by
a run of digits. -/
def NonPosParam (cs : List Char) : Prop :=
  (cs ≠ [] ∧ cs.all isDigit = true ∧ natOfDigits cs = 0) ∨
  (∃ ds, ds ≠ [] ∧ ds.all isDigit = true ∧ cs = '-' :: ds)

/-- Failure taxonomy of the factories, following the specification's
error names.  The code's `throw std::runtime_error("Unrecognized grid ...")`
maps to `unrecognized`; constructor `assert` failures map to
`unsupportedArea` (`assert(area == GLOBE)`) and `invalidParameter`
(`assert(N > 0)` / `assert(Ni > 0 && Nj > 0)`). -/
inductive GridError
  | unrecognized (name : String)
  | unsupportedArea
  | invalidParameter
deriving DecidableEq

/-- The grid variants of the Area-carrying sources (part_000..003):
`OGrid` (reduced Gaussian, "O<N>"), `FGrid` (regular Gaussian,
"F<N>"), `LLGrid` (regular lon-lat, "LL<Ni>x<Nj>"). -/
inductive Grid
  | ogrid (N : ℕ) (area : Area)
  | fgrid (N : ℕ) (area : Area)
  | llgrid (Ni Nj : ℕ) (area : Area)
deriving DecidableEq

/-- `OGrid`'s per-row point count vector written through the forward
iterator `a` and reverse iterator `b`: position `j < N` receives
`20 + 4*j` from `a`, position `j >= N` receives `20 + 4*(2N-1-j)`
from `b` (written at loop index `i = 2N-1-j`). -/
def oNi (N j : ℕ) : ℕ :=
  if j < N then 20 + 4 * j else 20 + 4 * (2 * N - 1 - j)

/-- The `N_` vector of `OGrid(N)`: `2N` entries filled by `oNi`. -/
def oNiList (N : ℕ) : List ℕ := (List.range (2 * N)).map (oNi N)

/-- The `N_` member of each variant: `OGrid` fills the symmetric
octahedral counts, `FGrid` does `N_.assign(2 * N, 4 * N)`, and
`LLGrid` does `N_.assign(Ni, Nj)` — i.e. `Ni` copies of the value
`Nj`, exactly as written in part_000..003. -/
def Grid.Nvec : Grid → List ℕ
  | .ogrid N _ => oNiList N
  | .fgrid N _ => List.replicate (2 * N) (4 * N)
  | .llgrid ni nj _ => List.replicate ni nj

/-- `Grid::Nj() { return N_.size(); }`. -/
def Grid.Nj (g : Grid) : ℕ := g.Nvec.length

/-- `Grid::Ni(j) { return N_[j]; }` (out-of-range reads, absent in the
program's uses, default to 0). -/
def Grid.Ni (g : Grid) (j : ℕ) : ℕ := g.Nvec.getD j 0

/-- The `area_` member. -/
def Grid.area : Grid → Area
  | .ogrid _ a => a
  | .fgrid _ a => a
  | .llgrid _ _ a => a

/-- The northern-hemisphere Gaussian latitude approximation written by
the forward iterator: `*a = 90. - dx * (i + 0.5)` with `dx = 90 / N`. -/
def gaussNorth (N i : ℕ) : ℚ :=
  90 - (90 / (N : ℚ)) * ((i : ℚ) + 1 / 2)

/-- `GaussianGrid::Xj` as an index function on `[0, 2N)`: position
`j < N` receives `gaussNorth N j` from the forward iterator, position
`j >= N` receives the mirrored `*b = -*a` written at loop index
`i = 2N-1-j`. -/
def gaussXjFun (N j : ℕ) : ℚ :=
  if j < N then gaussNorth N j else -gaussNorth N (2 * N - 1 - j)

/-- The vector returned by `GaussianGrid::Xj` (size `2N`). -/
def gaussXjList (N : ℕ) : List ℚ := (List.range (2 * N)).map (gaussXjFun N)

/-- `linear_spacing_n(first, count, a, b, endpoint := true)`:
`x[i] = a + i * dx` with `dx = (b - a) / (count - 1)`.  The C++
asserts `1 < count && a != b`; the formula is embedded as written. -/
def linspace (a b : ℚ) (count : ℕ) : List ℚ :=
  (List.range count).map fun (i : ℕ) => a + (i : ℚ) * ((b - a) / ((count - 1 : ℕ) : ℚ))

/-- `Grid::Xj` per variant (part_002): the Gaussian variants share
`GaussianGrid::Xj` (whose `N = Nj() / 2` equals the construction
parameter), and `LLGrid::Xj` is `linear_spacing_n(x.begin(), Nj(),
area.N(), area.S(), true)` — over `Nj() = N_.size()` entries. -/
def Grid.Xj : Grid → List ℚ
  | .ogrid N _ => gaussXjList N
  | .fgrid N _ => gaussXjList N
  | .llgrid ni nj a => linspace a.N a.S (List.replicate ni nj).length

/-- `Grid::build` of the Area-carrying variants (part_000..002):
tries the `[Oo]`, `[Ff]`, `LL` regexes in order and otherwise throws
"Unrecognized grid".  The constructor asserts (`area == GLOBE` for the
Gaussian families, positivity of the dimensions) are modelled as the
corresponding taxonomy errors. -/
def Grid.build (name : String) (area : Area) : Except GridError Grid :=
  match matchGauss ['O', 'o'] name.toList with
  | some N =>
    if Area.eqOp area GLOBE then
      if 0 < N then .ok (.ogrid N area) else .error .invalidParameter
    else .error .unsupportedArea
  | none =>
  match matchGauss ['F', 'f'] name.toList with
  | some N =>
    if Area.eqOp area GLOBE then
      if 0 < N then .ok (.fgrid N area) else .error .invalidParameter
    else .error .unsupportedArea
  | none =>
  match matchLL name.toList with
  | some (ni, nj) =>
    if 0 < ni ∧ 0 < nj then .ok (.llgrid ni nj area) else .error .invalidParameter
  | none => .error (.unrecognized name)

/-- gb-sort.cc's grid type: `ReducedGrid` stores the per-row counts
directly, `RegularGrid(Ni, Nj)` stores `std::vector<size_t>(Nj, Ni)`. -/
inductive GBGrid
  | reduced (Ni : List ℕ)
  | regular (Ni Nj : ℕ)
deriving DecidableEq

/-- The `Ni_` vector of a gb-sort.cc grid. -/
def GBGrid.Nvec : GBGrid → List ℕ
  | .reduced l => l
  | .regular ni nj => List.replicate nj ni

/-- gb-sort.cc's `Grid::build` (lines 98-138): octahedral and regular
Gaussian as in the other variants, but the lon-lat regex is
`[L]([1-9][0-9]*)x([1-9][0-9]*)` — a single leading `L`.  No Area is
taken; `assert(N > 0)` etc. map to `invalidParameter`. -/
def gbBuild (name : String) : Except GridError GBGrid :=
  match matchGauss ['O', 'o'] name.toList with
  | some N =>
    if 0 < N then .ok (.reduced (oNiList N)) else .error .invalidParameter
  | none =>
  match matchGauss ['F', 'f'] name.toList with
  | some N =>
    if 0 < N then .ok (.regular (N * 4) (N * 2)) else .error .invalidParameter
  | none =>
  match matchGBLL name.toList with
  | some (ni, nj) =>
    if 0 < ni ∧ 0 < nj then .ok (.regular ni nj) else .error .invalidParameter
  | none => .error (.unrecognized name)

/-- Fractional value of the digits after the decimal point, as
`std::stod` reads them. -/
def fracVal (ds : List Char) : ℚ :=
  (natOfDigits ds : ℚ) / (10 ^ ds.length : ℚ)

/-- Full match of the number alternative
`([0-9]+([.][0-9]*)?|[.][0-9]+)` together with its `std::stod` value:
either a nonempty digit run with an optional point and fraction
digits, or a point followed by a nonempty digit run. -/
def parseDecimal (cs : List Char) : Option ℚ :=
  match cs with
  | '.' :: rest =>
    if rest ≠ [] ∧ rest.all isDigit then some (fracVal rest) else none
  | _ =>
    if cs.takeWhile isDigit = [] then none
    else
      match cs.dropWhile isDigit with
      | [] => some ((natOfDigits (cs.takeWhile isDigit) : ℕ) : ℚ)
      | '.' :: rest =>
        if rest.all isDigit then
          some (((natOfDigits (cs.takeWhile isDigit) : ℕ) : ℚ) + fracVal rest)
        else none
      | _ => none

/-- The optional sign `[+-]?` in front of a number, with the
`std::stod` sign application. -/
def parseSigned (cs : List Char) : Option ℚ :=
  match cs with
  | '+' :: rest => parseDecimal rest
  | '-' :: rest => (parseDecimal rest).map Neg.neg
  | _ => parseDecimal cs

/-- `Area::Area(const std::string&)`: the string must match
`x/x/x/x` with `x` the signed-number pattern (the fields are the
slash-separated pieces, since the number pattern matches no `/`), each
field is read with `std::stod`, and `check()` must pass.  The asserted
regex match and `check()` are modelled as `none` on failure. -/
def Area.parse (s : String) : Option Area :=
  match (s.toList.splitOn '/').map parseSigned with
  | [some n, some w, some s', some e] =>
    if (Area.mk n w s' e).check then some (Area.mk n w s' e) else none
  | _ => none

instance {ε α : Type} [DecidableEq ε] [DecidableEq α] : DecidableEq (Except ε α) := fun x y =>
  match x, y with
  | .error e, .error f =>
    if h : e = f then isTrue (h ▸ rfl) else isFalse (fun hc => h (by injection hc))
  | .error _, .ok _ => isFalse (fun hc => by injection hc)
  | .ok _, .error _ => isFalse (fun hc => by injection hc)
  | .ok a, .ok b =>
    if h : a = b then isTrue (h ▸ rfl) else isFalse (fun hc => h (by injection hc))

/-! ### Helper lemmas -/

theorem getD_range_map {α : Type} (f : ℕ → α) (n i : ℕ) (d : α) (h : i < n) :
    ((List.range n).map f).getD i d = f i := by
  rw [List.getD_eq_getElem?_getD, List.getElem?_map, List.getElem?_range h]
  rfl

theorem getD_linspace (a b : ℚ) (n i : ℕ) (h : i < n) :
    (linspace a b n).getD i 0 = a + (i : ℚ) * ((b - a) / ((n - 1 : ℕ) : ℚ)) := by
  unfold linspace
  exact getD_range_map _ n i 0 h

theorem getD_gaussXjList (N i : ℕ) (h : i < 2 * N) :
    (gaussXjList N).getD i 0 = gaussXjFun N i := by
  unfold gaussXjList
  exact getD_range_map _ (2 * N) i 0 h

theorem getD_oNiList (N i : ℕ) (h : i < 2 * N) :
    (oNiList N).getD i 0 = oNi N i := by
  unfold oNiList
  exact getD_range_map _ (2 * N) i 0 h

/-! ### C3: regular lon-lat grid dimensions -/

/-- C3 (code bug evidence): the factory maps "LL2x3" to `LLGrid(2, 3, area)`,
whose constructor runs `N_.assign(Ni, Nj)` — `Ni = 2` copies of the value
`Nj = 3`.  The resulting grid therefore has `Nj() = 2` rows each with
`Ni(j) = 3` points, while the claim (and gb-sort.cc's own
`RegularGrid(Ni, Nj)`, which builds `std::vector<size_t>(Nj, Ni)`) calls
for `Nj = 3` rows each with `Ni = 2` points: the constructor arguments
are swapped in `N_.assign`. -/
theorem C3_llgrid_swapped_dimensions :
    Grid.build "LL2x3" GLOBE = .ok (Grid.llgrid 2 3 GLOBE) ∧
    (Grid.llgrid 2 3 GLOBE).Nj = 2 ∧ (Grid.llgrid 2 3 GLOBE).Ni 0 = 3 := by
  refine ⟨by decide, by decide, by decide⟩

/-! ### C7: non-positive grid dimensions -/

/-- C7 (counterexample): on the spec string "O0" the factory fails with
the Unrecognized-grid error, not with an invalid-parameter error as the
claim states: the octahedral regex `[Oo]([1-9][0-9]*)` already rejects
the zero parameter, so no parameter check is ever reached. -/
theorem C7_zero_dimension_counterexample :
    Grid.build "O0" GLOBE = .error (.unrecognized "O0") ∧
    (Except.error (GridError.unrecognized "O0") : Except GridError Grid) ≠
      .error .invalidParameter := by decide

/-! ### C8: Area round trip -/

/-- C8: the Area parsed from the global-area string equals (by
`Area::operator==`, i.e. component-wise on N, W, S, E) the explicitly
constructed `Area(90, 0, -90, 360)`, and `isGlobal()` holds for it. -/
theorem C8_area_roundtrip :
    Area.parse "90/0/-90/360" = some GLOBE ∧
    Area.eqOp GLOBE (Area.mk 90 0 (-90) 360) ∧ GLOBE.isGlobal := by
  have h : ("90/0/-90/360".toList.splitOn '/').map parseSigned
      = [some 90, some 0, some (-90), some 360] := by decide
  refine ⟨?_, ?_, ?_⟩
  · unfold Area.parse
    rw [h]
    norm_num [Area.check, GLOBE]
  · norm_num [Area.eqOp, GLOBE]
  · norm_num [Area.isGlobal, GLOBE, Area.includesNorthPole, Area.includesSouthPole,
      Area.isPeriodicWestEast]

/-! ### Gaussian latitude helpers -/

theorem gaussNorth_sub (N a b : ℕ) :
    gaussNorth N a - gaussNorth N b = (90 / (N : ℚ)) * ((b : ℚ) - (a : ℚ)) := by
  unfold gaussNorth
  ring

theorem gauss_step (N : ℕ) (hN : 1 ≤ N) (i : ℕ) (h : i + 1 < 2 * N) :
    gaussXjFun N i - gaussXjFun N (i + 1) = 90 / (N : ℚ) := by
  have hN0 : (N : ℚ) ≠ 0 := Nat.cast_ne_zero.mpr (by omega)
  unfold gaussXjFun
  rcases lt_trichotomy (i + 1) N with hc | hc | hc
  · rw [if_pos (by omega), if_pos hc, gaussNorth_sub]
    push_cast
    ring
  · have h1 : 2 * N - 1 - (i + 1) = i := by omega
    rw [if_pos (by omega), if_neg (by omega), h1]
    have hcast : ((i : ℚ)) + 1 = (N : ℚ) := by exact_mod_cast hc
    have hi : (i : ℚ) = (N : ℚ) - 1 := by linarith
    unfold gaussNorth
    rw [hi]
    field_simp
    ring
  · rw [if_neg (by omega), if_neg (by omega), neg_sub_neg, gaussNorth_sub]
    have hab : (2 * N - 1 - (i + 1)) + 1 = 2 * N - 1 - i := by omega
    have habq : ((2 * N - 1 - (i + 1) : ℕ) : ℚ) + 1 = ((2 * N - 1 - i : ℕ) : ℚ) := by
      exact_mod_cast hab
    rw [← habq]
    ring

theorem gauss_equator_north (N : ℕ) (hN : 1 ≤ N) :
    gaussXjFun N (N - 1) = 45 / (N : ℚ) := by
  have hN0 : (N : ℚ) ≠ 0 := Nat.cast_ne_zero.mpr (by omega)
  unfold gaussXjFun
  rw [if_pos (by omega)]
  unfold gaussNorth
  have hcast : ((N - 1 : ℕ) : ℚ) = (N : ℚ) - 1 := by
    rw [Nat.cast_sub hN]
    norm_num
  rw [hcast]
  field_simp
  ring

theorem gauss_equator_south (N : ℕ) (hN : 1 ≤ N) :
    gaussXjFun N N = -(45 / (N : ℚ)) := by
  have hN0 : (N : ℚ) ≠ 0 := Nat.cast_ne_zero.mpr (by omega)
  unfold gaussXjFun
  rw [if_neg (by omega)]
  have h1 : 2 * N - 1 - N = N - 1 := by omega
  rw [h1]
  unfold gaussNorth
  have hcast : ((N - 1 : ℕ) : ℚ) = (N : ℚ) - 1 := by
    rw [Nat.cast_sub hN]
    norm_num
  rw [hcast]
  field_simp
  ring

/-! ### C4: Gaussian-family row count and center-latitude law -/

/-- C4: every Gaussian-family grid of parameter `N >= 1` (both the
reduced `OGrid` and the regular `FGrid`) has exactly `2N` rows and the
shared `GaussianGrid::Xj` latitudes: with `dx = 90/N`, the row at
pole-relative index `i < N` has center latitude `90 - dx*(i + 0.5)`,
and the row at index `2N-1-i` carries its negation. -/
theorem C4_gaussian_row_latitudes (N i : ℕ) (area : Area) (hN : 1 ≤ N) (hi : i < N) :
    (Grid.ogrid N area).Nj = 2 * N ∧ (Grid.fgrid N area).Nj = 2 * N ∧
    (Grid.ogrid N area).Xj = gaussXjList N ∧ (Grid.fgrid N area).Xj = gaussXjList N ∧
    (gaussXjList N).length = 2 * N ∧
    (gaussXjList N).getD i 0 = 90 - (90 / (N : ℚ)) * ((i : ℚ) + 1 / 2) ∧
    (gaussXjList N).getD (2 * N - 1 - i) 0 = -((gaussXjList N).getD i 0) := by
  refine ⟨?_, ?_, rfl, rfl, ?_, ?_, ?_⟩
  · simp [Grid.Nj, Grid.Nvec, oNiList]
  · simp [Grid.Nj, Grid.Nvec]
  · simp [gaussXjList]
  · rw [getD_gaussXjList N i (by omega)]
    unfold gaussXjFun
    rw [if_pos hi]
    rfl
  · rw [getD_gaussXjList N (2 * N - 1 - i) (by omega), getD_gaussXjList N i (by omega)]
    unfold gaussXjFun
    rw [if_neg (by omega), if_pos hi]
    have h1 : 2 * N - 1 - (2 * N - 1 - i) = i := by omega
    rw [h1]

/-- C4 witness: the law instantiated at `N = 2`, `i = 0` over the
global Area. -/
theorem C4_gaussian_row_latitudes_witness :
    (Grid.ogrid 2 GLOBE).Nj = 2 * 2 ∧ (Grid.fgrid 2 GLOBE).Nj = 2 * 2 ∧
    (Grid.ogrid 2 GLOBE).Xj = gaussXjList 2 ∧ (Grid.fgrid 2 GLOBE).Xj = gaussXjList 2 ∧
    (gaussXjList 2).length = 2 * 2 ∧
    (gaussXjList 2).getD 0 0 = 90 - (90 / (2 : ℚ)) * ((0 : ℚ) + 1 / 2) ∧
    (gaussXjList 2).getD (2 * 2 - 1 - 0) 0 = -((gaussXjList 2).getD 0 0) :=
  C4_gaussian_row_latitudes 2 0 GLOBE (by decide) (by decide)

/-! ### C9: the Gaussian latitudes form an arithmetic progression -/

/-- C9: for `N >= 1` the `2N` Gaussian center latitudes are strictly
decreasing with the constant exact step `90/N` between consecutive
rows, including across the equator, where row `N-1` sits at `45/N` and
row `N` at `-45/N`; the whole sequence is an arithmetic progression. -/
theorem C9_gaussian_arithmetic_progression (N : ℕ) (hN : 1 ≤ N) :
    (∀ i, i + 1 < 2 * N →
      (gaussXjList N).getD i 0 - (gaussXjList N).getD (i + 1) 0 = 90 / (N : ℚ)) ∧
    (gaussXjList N).getD (N - 1) 0 = 45 / (N : ℚ) ∧
    (gaussXjList N).getD N 0 = -(45 / (N : ℚ)) := by
  refine ⟨fun i hi => ?_, ?_, ?_⟩
  · rw [getD_gaussXjList N i (by omega), getD_gaussXjList N (i + 1) (by omega)]
    exact gauss_step N hN i hi
  · rw [getD_gaussXjList N (N - 1) (by omega)]
    exact gauss_equator_north N hN
  · rw [getD_gaussXjList N N (by omega)]
    exact gauss_equator_south N hN

/-- C9 witness: the arithmetic-progression law instantiated at `N = 2`. -/
theorem C9_gaussian_arithmetic_progression_witness :
    (∀ i, i + 1 < 2 * 2 →
      (gaussXjList 2).getD i 0 - (gaussXjList 2).getD (i + 1) 0 = 90 / (2 : ℚ)) ∧
    (gaussXjList 2).getD (2 - 1) 0 = 45 / (2 : ℚ) ∧
    (gaussXjList 2).getD 2 0 = -(45 / (2 : ℚ)) :=
  C9_gaussian_arithmetic_progression 2 (by decide)

/-! ### C5: octahedral per-row point counts -/

/-- C5 (counterexample): in the `O2` grid, row 0 lies farther from the
equator than row 1 (center latitudes `67.5 > 22.5 > 0`), yet its point
count is 20 while row 1 has 24: moving away from the equator the
counts decrease by 4, so the claim's "increase by 4 per row moving
away from the equator" fails (it would force `Ni(0) = Ni(1) + 4`). -/
theorem C5_equator_direction_counterexample :
    gaussXjFun 2 1 < gaussXjFun 2 0 ∧ (0 : ℚ) < gaussXjFun 2 1 ∧
    (oNiList 2).getD 0 0 = 20 ∧ (oNiList 2).getD 1 0 = 24 ∧
    ¬((oNiList 2).getD 0 0 = (oNiList 2).getD 1 0 + 4) := by
  refine ⟨?_, ?_, by decide, by decide, by decide⟩
  · norm_num [gaussXjFun, gaussNorth]
  · norm_num [gaussXjFun, gaussNorth]

/-- C5 (amended): for `N >= 1` the `O<N>` grid has `2N` rows, point
counts symmetric about the equator (`Ni(i) = Ni(2N-1-i)`), the rows
nearest the poles (indices 0 and `2N-1`) have 20 points, and the
counts increase by 4 per row moving away from the pole toward the
equator. -/
theorem C5_octahedral_point_counts (N : ℕ) (hN : 1 ≤ N) :
    (oNiList N).length = 2 * N ∧
    (Grid.ogrid N GLOBE).Nvec = oNiList N ∧
    (∀ i, i < 2 * N → (oNiList N).getD i 0 = (oNiList N).getD (2 * N - 1 - i) 0) ∧
    (oNiList N).getD 0 0 = 20 ∧ (oNiList N).getD (2 * N - 1) 0 = 20 ∧
    (∀ i, i + 1 < N → (oNiList N).getD (i + 1) 0 = (oNiList N).getD i 0 + 4) := by
  refine ⟨by simp [oNiList], rfl, fun i hi => ?_, ?_, ?_, fun i hi => ?_⟩
  · rw [getD_oNiList N i hi, getD_oNiList N _ (by omega)]
    unfold oNi
    split <;> split <;> omega
  · rw [getD_oNiList N 0 (by omega)]
    unfold oNi
    split <;> omega
  · rw [getD_oNiList N (2 * N - 1) (by omega)]
    unfold oNi
    split <;> omega
  · rw [getD_oNiList N (i + 1) (by omega), getD_oNiList N i (by omega)]
    unfold oNi
    split <;> split <;> omega

/-- C5 witness: the amended count law instantiated at `N = 2`. -/
theorem C5_octahedral_point_counts_witness :
    (oNiList 2).length = 2 * 2 ∧
    (Grid.ogrid 2 GLOBE).Nvec = oNiList 2 ∧
    (∀ i, i < 2 * 2 → (oNiList 2).getD i 0 = (oNiList 2).getD (2 * 2 - 1 - i) 0) ∧
    (oNiList 2).getD 0 0 = 20 ∧ (oNiList 2).getD (2 * 2 - 1) 0 = 20 ∧
    (∀ i, i + 1 < 2 → (oNiList 2).getD (i + 1) 0 = (oNiList 2).getD i 0 + 4) :=
  C5_octahedral_point_counts 2 (by decide)

/-! ### Parsing helpers for the factory grammar -/

theorem isNonzeroDigit_isDigit (c : Char) (h : isNonzeroDigit c = true) : isDigit c = true := by
  unfold isNonzeroDigit at h
  unfold isDigit
  simp only [Bool.and_eq_true, decide_eq_true_eq] at h ⊢
  exact ⟨le_trans (by decide) h.1, h.2⟩

theorem matchPosInt_digits (ds : List Char) (n : ℕ) (h : matchPosInt ds = some n) :
    ds.all isDigit = true := by
  match ds with
  | [] => simp [matchPosInt] at h
  | c :: rest =>
    simp only [matchPosInt] at h
    split at h
    · rename_i hcond
      simp only [Bool.and_eq_true] at hcond
      simp [List.all_cons, isNonzeroDigit_isDigit c hcond.1, hcond.2]
    · exact absurd h (by simp)

theorem foldl_digits_pos (rest : List Char) (n : ℕ) (hn : 1 ≤ n) :
    1 ≤ rest.foldl (fun n c => 10 * n + digitVal c) n := by
  induction rest generalizing n with
  | nil => exact hn
  | cons c cs ih =>
    simp only [List.foldl_cons]
    exact ih _ (by omega)

theorem matchPosInt_pos (ds : List Char) (n : ℕ) (h : matchPosInt ds = some n) : 1 ≤ n := by
  match ds with
  | [] => simp [matchPosInt] at h
  | c :: rest =>
    simp only [matchPosInt] at h
    split at h
    · rename_i hcond
      simp only [Bool.and_eq_true] at hcond
      have h1 : '1' ≤ c := by
        have hz := hcond.1
        unfold isNonzeroDigit at hz
        simp only [Bool.and_eq_true, decide_eq_true_eq] at hz
        exact hz.1
      have h49 : 49 ≤ c.toNat := h1
      have h48 : '0'.toNat = 48 := rfl
      have hdv : 1 ≤ digitVal c := by
        unfold digitVal
        omega
      injection h with h
      subst h
      unfold natOfDigits
      simp only [List.foldl_cons]
      exact foldl_digits_pos rest _ (by omega)
    · exact absurd h (by simp)

theorem takeWhile_digits_append (ds1 ds2 : List Char) (h : ds1.all isDigit = true) :
    (ds1 ++ 'x' :: ds2).takeWhile isDigit = ds1 ∧
    (ds1 ++ 'x' :: ds2).dropWhile isDigit = 'x' :: ds2 := by
  have hx : isDigit 'x' = false := by decide
  induction ds1 with
  | nil => simp [List.takeWhile_cons, List.dropWhile_cons, hx]
  | cons c cs ih =>
    simp only [List.all_cons, Bool.and_eq_true] at h
    have ihh := ih h.2
    simp [List.cons_append, List.takeWhile_cons, List.dropWhile_cons, h.1, ihh.1, ihh.2]

theorem matchDimsBody_eq (ds1 ds2 : List Char) (ni nj : ℕ)
    (h1 : matchPosInt ds1 = some ni) (h2 : matchPosInt ds2 = some nj) :
    matchDimsBody (ds1 ++ 'x' :: ds2) = some (ni, nj) := by
  have hd := matchPosInt_digits ds1 ni h1
  have htw := takeWhile_digits_append ds1 ds2 hd
  simp only [matchDimsBody, htw.1, htw.2, h1, h2]

theorem matchGauss_notMem (letters : List Char) (c : Char) (rest : List Char)
    (hL : c ∉ letters) : matchGauss letters (c :: rest) = none := by
  simp only [matchGauss]
  rw [if_neg hL]

/-! ### C6: the lon-lat grammar and the factories -/

/-- C6 (counterexample): gb-sort.cc's factory fails the well-formed
specification "LL1x2" with the Unrecognized-grid error — its lon-lat
regex `[L](...)x(...)` expects a single leading `L`, so it accepts
"L1x2" instead.  The claim's "the grid factory succeeds and returns a
RegularLonLat grid" therefore fails on this factory. -/
theorem C6_gb_factory_rejects_LL :
    gbBuild "LL1x2" = .error (.unrecognized "LL1x2") ∧
    gbBuild "L1x2" = .ok (.regular 1 2) := by decide

/-- C6 (amended): for every string of the exact form `LL<Ni>x<Nj>`
with `<Ni>`, `<Nj>` positive decimal integers (i.e. matching
`[1-9][0-9]*`), the Area-carrying variants' factory succeeds with the
regular lon-lat grid `LLGrid(Ni, Nj, area)`; gb-sort.cc's factory,
whose regex has a single leading `L`, instead fails every such string
with the Unrecognized-grid error. -/
theorem C6_llgrid_factory_grammar (s : String) (area : Area) (ds1 ds2 : List Char) (ni nj : ℕ)
    (hs : s.toList = 'L' :: 'L' :: (ds1 ++ 'x' :: ds2))
    (h1 : matchPosInt ds1 = some ni) (h2 : matchPosInt ds2 = some nj) :
    Grid.build s area = .ok (Grid.llgrid ni nj area) ∧
    gbBuild s = .error (.unrecognized s) := by
  have hbody := matchDimsBody_eq ds1 ds2 ni nj h1 h2
  have hni := matchPosInt_pos ds1 ni h1
  have hnj := matchPosInt_pos ds2 nj h2
  constructor
  · unfold Grid.build
    rw [hs, matchGauss_notMem _ _ _ (by decide), matchGauss_notMem _ _ _ (by decide)]
    simp only [matchLL, hbody]
    rw [if_pos ⟨hni, hnj⟩]
  · unfold gbBuild
    rw [hs]
    rfl

/-- C6 witness: the grammar theorem instantiated at "LL3x4" over the
global Area. -/
theorem C6_llgrid_factory_grammar_witness :
    Grid.build "LL3x4" GLOBE = .ok (Grid.llgrid 3 4 GLOBE) ∧
    gbBuild "LL3x4" = .error (.unrecognized "LL3x4") :=
  C6_llgrid_factory_grammar "LL3x4" GLOBE ['3'] ['4'] 3 4 (by decide) (by decide) (by decide)

/-! ### C7: non-positive dimension parameters, universally -/

theorem matchPosInt_nonpos (cs : List Char) (hp : NonPosParam cs) :
    matchPosInt cs = none := by
  rcases hp with ⟨hne, hdig, hval⟩ | ⟨ds, hne, hdsdig, rfl⟩
  · obtain ⟨c, rest, rfl⟩ : ∃ c rest, cs = c :: rest := by
      cases cs with
      | nil => exact absurd rfl hne
      | cons c rest => exact ⟨c, rest, rfl⟩
    by_cases hcond : (isNonzeroDigit c && rest.all isDigit) = true
    · exfalso
      have hpos := matchPosInt_pos (c :: rest) (natOfDigits (c :: rest)) (by
        simp [matchPosInt, hcond])
      omega
    · simp [matchPosInt, hcond]
  · have hm : isNonzeroDigit '-' = false := by decide
    simp [matchPosInt, hm]

theorem matchDimsBody_head_not (rest : List Char) (c : Char) (cs : List Char)
    (hdw : rest.dropWhile isDigit = c :: cs) (hx : c ≠ 'x') :
    matchDimsBody rest = none := by
  unfold matchDimsBody
  rw [hdw]
  split
  · rename_i ds2 heq
    injection heq with h1 h2
    exact absurd h1 hx
  · rfl

theorem matchDimsBody_nonpos (p1 p2 : List Char)
    (hp : NonPosParam p1 ∨ (p1.all isDigit = true ∧ NonPosParam p2)) :
    matchDimsBody (p1 ++ 'x' :: p2) = none := by
  rcases hp with hzero | ⟨hdig, hp2⟩
  · rcases hzero with ⟨hne, hdig, hval⟩ | ⟨ds, hne, hdsdig, rfl⟩
    · have htw := takeWhile_digits_append p1 p2 hdig
      have hnone := matchPosInt_nonpos p1 (Or.inl ⟨hne, hdig, hval⟩)
      simp only [matchDimsBody, htw.1, htw.2, hnone]
    · have hdw : (('-' :: ds) ++ 'x' :: p2).dropWhile isDigit = '-' :: (ds ++ 'x' :: p2) := by
        rw [List.cons_append, List.dropWhile_cons]
        simp [show isDigit '-' = false from by decide]
      exact matchDimsBody_head_not _ '-' _ hdw (by decide)
  · have htw := takeWhile_digits_append p1 p2 hdig
    have hnone := matchPosInt_nonpos p2 hp2
    rcases hmp : matchPosInt p1 with _ | ni
    · simp only [matchDimsBody, htw.1, htw.2, hmp, hnone]
    · simp only [matchDimsBody, htw.1, htw.2, hmp, hnone]

theorem matchGauss_none (letters : List Char) (c : Char) (rest : List Char)
    (h : matchPosInt rest = none) : matchGauss letters (c :: rest) = none := by
  simp only [matchGauss]
  split
  · exact h
  · rfl

theorem matchLL_not_L (c : Char) (rest : List Char) (hc : c ≠ 'L') :
    matchLL (c :: rest) = none := by
  unfold matchLL
  split
  · rename_i r heq
    injection heq with h1 h2
    exact absurd h1 hc
  · rfl

theorem matchGBLL_not_L (c : Char) (rest : List Char) (hc : c ≠ 'L') :
    matchGBLL (c :: rest) = none := by
  unfold matchGBLL
  split
  · rename_i r heq
    injection heq with h1 h2
    exact absurd h1 hc
  · rfl

theorem build_unrecognized (s : String) (area : Area)
    (h1 : matchGauss ['O', 'o'] s.toList = none)
    (h2 : matchGauss ['F', 'f'] s.toList = none)
    (h3 : matchLL s.toList = none) :
    Grid.build s area = .error (.unrecognized s) := by
  unfold Grid.build
  simp only [h1, h2, h3]

theorem gbBuild_unrecognized (s : String)
    (h1 : matchGauss ['O', 'o'] s.toList = none)
    (h2 : matchGauss ['F', 'f'] s.toList = none)
    (h3 : matchGBLL s.toList = none) :
    gbBuild s = .error (.unrecognized s) := by
  unfold gbBuild
  simp only [h1, h2, h3]

/-- C7 (amended): every grid specification string whose dimension
parameter is zero or negative fails with the Unrecognized-grid error
in both factories.  The first conjunct covers the Gaussian forms
(`O`, `o`, `F` or `f` followed by a zero-valued digit run or a
'-'-signed integer), the second the lon-lat form `LL<p1>x<p2>` with a
zero-or-negative `p1` or `p2`: the `([1-9][0-9]*)` groups reject such
parameters, no grammar matches, and the factory's only `throw` fires,
so the `assert`-based invalid-parameter path is never reached. -/

theorem C7_zero_dimension_unrecognized (s : String) (area : Area) :
    (∀ c param, s.toList = c :: param → c ∈ (['O', 'o', 'F', 'f'] : List Char) →
      NonPosParam param →
      Grid.build s area = .error (.unrecognized s) ∧
      gbBuild s = .error (.unrecognized s)) ∧
    (∀ p1 p2, s.toList = 'L' :: 'L' :: (p1 ++ 'x' :: p2) →
      NonPosParam p1 ∨ (p1.all isDigit = true ∧ NonPosParam p2) →
      Grid.build s area = .error (.unrecognized s) ∧
      gbBuild s = .error (.unrecognized s)) := by
  constructor
  · intro c param hs hc hp
    have hnone := matchPosInt_nonpos param hp
    have hcL : c ≠ 'L' := by
      simp only [List.mem_cons, List.mem_singleton] at hc
      rcases hc with rfl | rfl | rfl | rfl | h
      · decide
      · decide
      · decide
      · decide
      · simp at h
    have h1 : matchGauss ['O', 'o'] s.toList = none := by
      rw [hs]; exact matchGauss_none _ c param hnone
    have h2 : matchGauss ['F', 'f'] s.toList = none := by
      rw [hs]; exact matchGauss_none _ c param hnone
    have h3 : matchLL s.toList = none := by
      rw [hs]; exact matchLL_not_L c param hcL
    have h4 : matchGBLL s.toList = none := by
      rw [hs]; exact matchGBLL_not_L c param hcL
    exact ⟨build_unrecognized s area h1 h2 h3, gbBuild_unrecognized s h1 h2 h4⟩
  · intro p1 p2 hs hp
    have hbody := matchDimsBody_nonpos p1 p2 hp
    have h1 : matchGauss ['O', 'o'] s.toList = none := by
      rw [hs]; exact matchGauss_notMem _ _ _ (by decide)
    have h2 : matchGauss ['F', 'f'] s.toList = none := by
      rw [hs]; exact matchGauss_notMem _ _ _ (by decide)
    have h3 : matchLL s.toList = none := by
      rw [hs]
      simp only [matchLL, hbody]
    have h4 : matchGBLL s.toList = none := by
      rw [hs]
      have hdw : ('L' :: (p1 ++ 'x' :: p2)).dropWhile isDigit = 'L' :: (p1 ++ 'x' :: p2) := by
        rw [List.dropWhile_cons]
        simp [show isDigit 'L' = false from by decide]
      simp only [matchGBLL]
      exact matchDimsBody_head_not _ 'L' _ hdw (by decide)
    exact ⟨build_unrecognized s area h1 h2 h3, gbBuild_unrecognized s h1 h2 h4⟩

/-- C7 witness: the universal statement instantiated at "O0", "F0",
"O-1" and "LL0x4". -/

theorem C7_zero_dimension_unrecognized_witness :
    Grid.build "O0" GLOBE = .error (.unrecognized "O0") ∧
    gbBuild "O0" = .error (.unrecognized "O0") ∧
    Grid.build "F0" GLOBE = .error (.unrecognized "F0") ∧
    Grid.build "O-1" GLOBE = .error (.unrecognized "O-1") ∧
    Grid.build "LL0x4" GLOBE = .error (.unrecognized "LL0x4") ∧
    gbBuild "LL0x4" = .error (.unrecognized "LL0x4") :=
  ⟨((C7_zero_dimension_unrecognized "O0" GLOBE).1 'O' ['0'] (by decide) (by decide) (Or.inl (by decide))).1,
   ((C7_zero_dimension_unrecognized "O0" GLOBE).1 'O' ['0'] (by decide) (by decide) (Or.inl (by decide))).2,
   ((C7_zero_dimension_unrecognized "F0" GLOBE).1 'F' ['0'] (by decide) (by decide) (Or.inl (by decide))).1,
   ((C7_zero_dimension_unrecognized "O-1" GLOBE).1 'O' ['-', '1'] (by decide) (by decide)
      (Or.inr ⟨['1'], by decide, by decide, rfl⟩)).1,
   ((C7_zero_dimension_unrecognized "LL0x4" GLOBE).2 ['0'] ['4'] (by decide) (Or.inl (Or.inl (by decide)))).1,
   ((C7_zero_dimension_unrecognized "LL0x4" GLOBE).2 ['0'] ['4'] (by decide) (Or.inl (Or.inl (by decide)))).2⟩

/-! ### Boundary-builder helpers -/

theorem fillMidpoints_length (points : List ℚ) (a b : ℚ) (label : ℤ)
    (h : 2 ≤ points.length) :
    (fillMidpoints points a b label).length = points.length + 1 := by
  match points with
  | p0 :: p1 :: rest => simp [fillMidpoints]
  | [] => simp at h
  | [_] => simp at h

theorem fillMidpoints_getD_zero (points : List ℚ) (a b : ℚ) (label : ℤ)
    (h : 2 ≤ points.length) :
    (fillMidpoints points a b label).getD 0 ⟨0, 0⟩ = ⟨a, label⟩ := by
  match points with
  | p0 :: p1 :: rest => rfl
  | [] => simp at h
  | [_] => simp at h

theorem fillMidpoints_getD_last (points : List ℚ) (a b : ℚ) (label : ℤ)
    (h : 2 ≤ points.length) :
    (fillMidpoints points a b label).getD points.length ⟨0, 0⟩ = ⟨b, label⟩ := by
  match points with
  | p0 :: p1 :: rest =>
    rw [show fillMidpoints (p0 :: p1 :: rest) a b label =
        ⟨a, label⟩ :: (((p1 :: rest).map fun x => ⟨x - (p1 - p0) / 2, label⟩) ++ [⟨b, label⟩])
        from rfl]
    rw [show (p0 :: p1 :: rest).length = (rest.length + 1) + 1 from rfl]
    rw [List.getD_cons_succ]
    rw [List.getD_append_right _ _ _ _ (by simp)]
    simp
  | [] => simp at h
  | [_] => simp at h

theorem fillMidpoints_getD_interior (points : List ℚ) (a b : ℚ) (label : ℤ) (i : ℕ)
    (h : 2 ≤ points.length) (h1 : 1 ≤ i) (hi : i < points.length) :
    (fillMidpoints points a b label).getD i ⟨0, 0⟩ =
      ⟨points.getD i 0 - (points.getD 1 0 - points.getD 0 0) / 2, label⟩ := by
  match points with
  | p0 :: p1 :: rest =>
    obtain ⟨j, rfl⟩ : ∃ j, i = j + 1 := ⟨i - 1, by omega⟩
    have hj : j < (p1 :: rest).length := by
      simp only [List.length_cons] at hi ⊢
      omega
    rw [show fillMidpoints (p0 :: p1 :: rest) a b label =
        ⟨a, label⟩ :: (((p1 :: rest).map fun x => ⟨x - (p1 - p0) / 2, label⟩) ++ [⟨b, label⟩])
        from rfl]
    simp only [List.getD_cons_succ, List.getD_cons_zero]
    rw [List.getD_append _ _ _ _ (by simpa using hj)]
    rw [List.getD_eq_getElem _ _ (by simpa using hj), List.getElem_map]
    rw [List.getD_eq_getElem _ _ hj]
  | [] => simp at h
  | [_] => simp at h

theorem fillMidpoints_labels (points : List ℚ) (a b : ℚ) (label : ℤ) :
    ∀ p ∈ fillMidpoints points a b label, p.i = label := by
  match points with
  | p0 :: p1 :: rest =>
    intro p hp
    rw [show fillMidpoints (p0 :: p1 :: rest) a b label =
        ⟨a, label⟩ :: (((p1 :: rest).map fun x => ⟨x - (p1 - p0) / 2, label⟩) ++ [⟨b, label⟩])
        from rfl] at hp
    rcases List.mem_cons.mp hp with h | hp2
    · rw [h]
    rcases List.mem_append.mp hp2 with hm | hb
    · obtain ⟨x, _, h⟩ := List.mem_map.mp hm
      rw [← h]
    · rw [List.mem_singleton.mp hb]
  | [] => intro p hp; simp [fillMidpoints] at hp
  | [_] => intro p hp; simp [fillMidpoints] at hp

theorem Grid.Nj_ogrid (N : ℕ) (area : Area) : (Grid.ogrid N area).Nj = 2 * N := by
  simp [Grid.Nj, Grid.Nvec, oNiList]

theorem Grid.Nj_fgrid (N : ℕ) (area : Area) : (Grid.fgrid N area).Nj = 2 * N := by
  simp [Grid.Nj, Grid.Nvec]

theorem Grid.Nj_llgrid (ni nj : ℕ) (area : Area) : (Grid.llgrid ni nj area).Nj = ni := by
  simp [Grid.Nj, Grid.Nvec]

theorem Grid.Xj_length (g : Grid) : g.Xj.length = g.Nj := by
  cases g <;> simp [Grid.Xj, Grid.Nj, Grid.Nvec, gaussXjList, linspace, oNiList]

theorem linspace_step (a b : ℚ) (n i : ℕ) (h : i + 1 < n) :
    (linspace a b n).getD (i + 1) 0 - (linspace a b n).getD i 0
      = (b - a) / ((n - 1 : ℕ) : ℚ) := by
  rw [getD_linspace a b n (i + 1) h, getD_linspace a b n i (by omega)]
  push_cast
  ring

theorem grid_xj_step (g : Grid) (i : ℕ) (h2 : 2 ≤ g.Nj) (hi : i + 1 < g.Nj) :
    g.Xj.getD (i + 1) 0 - g.Xj.getD i 0 = g.Xj.getD 1 0 - g.Xj.getD 0 0 := by
  cases g with
  | ogrid N area =>
    rw [Grid.Nj_ogrid] at h2 hi
    have hN : 1 ≤ N := by omega
    simp only [Grid.Xj]
    rw [getD_gaussXjList N (i + 1) hi, getD_gaussXjList N i (by omega),
        getD_gaussXjList N 1 (by omega), getD_gaussXjList N 0 (by omega)]
    have e1 := gauss_step N hN i hi
    have e0 := gauss_step N hN 0 (by omega)
    linarith
  | fgrid N area =>
    rw [Grid.Nj_fgrid] at h2 hi
    have hN : 1 ≤ N := by omega
    simp only [Grid.Xj]
    rw [getD_gaussXjList N (i + 1) hi, getD_gaussXjList N i (by omega),
        getD_gaussXjList N 1 (by omega), getD_gaussXjList N 0 (by omega)]
    have e1 := gauss_step N hN i hi
    have e0 := gauss_step N hN 0 (by omega)
    linarith
  | llgrid ni nj area =>
    rw [Grid.Nj_llgrid] at h2 hi
    simp only [Grid.Xj, List.length_replicate]
    have e1 := linspace_step area.N area.S ni i hi
    have e0 := linspace_step area.N area.S ni 0 (by omega)
    linarith

/-! ### C2: the boundary builder on the program's grids -/

/-- C2: for every grid of the program with at least two rows, the
boundary builder applied to its center latitudes with the area's
North/South bounds returns exactly `Nj + 1` points: the North bound
first, the pairwise midpoints `(x[i-1] + x[i]) / 2` for `i` in
`[1, Nj)`, and the South bound last, all tagged with the supplied
origin label.  (The midpoint form holds because every grid variant
produces center latitudes in exact arithmetic progression, so the
code's first-gap offset `x[i] - (x[1] - x[0])/2` coincides with the
pairwise midpoint; see C10 for the general-input law.) -/

theorem C2_boundary_builder (g : Grid) (label : ℤ) (h2 : 2 ≤ g.Nj) :
    (fillMidpoints g.Xj g.area.N g.area.S label).length = g.Nj + 1 ∧
    (fillMidpoints g.Xj g.area.N g.area.S label).getD 0 ⟨0, 0⟩ = ⟨g.area.N, label⟩ ∧
    (fillMidpoints g.Xj g.area.N g.area.S label).getD g.Nj ⟨0, 0⟩ = ⟨g.area.S, label⟩ ∧
    (∀ i, 1 ≤ i → i < g.Nj →
      (fillMidpoints g.Xj g.area.N g.area.S label).getD i ⟨0, 0⟩ =
        ⟨(g.Xj.getD (i - 1) 0 + g.Xj.getD i 0) / 2, label⟩) ∧
    (∀ p ∈ fillMidpoints g.Xj g.area.N g.area.S label, p.i = label) := by
  have hlen : g.Xj.length = g.Nj := Grid.Xj_length g
  have h2x : 2 ≤ g.Xj.length := by omega
  refine ⟨by rw [fillMidpoints_length _ _ _ _ h2x, hlen], fillMidpoints_getD_zero _ _ _ _ h2x,
    by rw [← hlen]; exact fillMidpoints_getD_last _ _ _ _ h2x,
    fun i hi1 hi2 => ?_, fillMidpoints_labels _ _ _ _⟩
  rw [fillMidpoints_getD_interior _ _ _ _ i h2x hi1 (by omega)]
  have hstep := grid_xj_step g (i - 1) h2 (by omega)
  have hii : i - 1 + 1 = i := by omega
  rw [hii] at hstep
  have hx : g.Xj.getD i 0 - (g.Xj.getD 1 0 - g.Xj.getD 0 0) / 2
      = (g.Xj.getD (i - 1) 0 + g.Xj.getD i 0) / 2 := by linarith
  rw [hx]

/-- C2 witness: the boundary-builder law instantiated on the `F1` grid
over the global Area with origin label 0. -/
theorem C2_boundary_builder_witness :
    (fillMidpoints (Grid.fgrid 1 GLOBE).Xj (Grid.fgrid 1 GLOBE).area.N
      (Grid.fgrid 1 GLOBE).area.S 0).length = (Grid.fgrid 1 GLOBE).Nj + 1 ∧
    (fillMidpoints (Grid.fgrid 1 GLOBE).Xj (Grid.fgrid 1 GLOBE).area.N
      (Grid.fgrid 1 GLOBE).area.S 0).getD 0 ⟨0, 0⟩ = ⟨(Grid.fgrid 1 GLOBE).area.N, 0⟩ ∧
    (fillMidpoints (Grid.fgrid 1 GLOBE).Xj (Grid.fgrid 1 GLOBE).area.N
      (Grid.fgrid 1 GLOBE).area.S 0).getD (Grid.fgrid 1 GLOBE).Nj ⟨0, 0⟩ =
      ⟨(Grid.fgrid 1 GLOBE).area.S, 0⟩ ∧
    (∀ i, 1 ≤ i → i < (Grid.fgrid 1 GLOBE).Nj →
      (fillMidpoints (Grid.fgrid 1 GLOBE).Xj (Grid.fgrid 1 GLOBE).area.N
        (Grid.fgrid 1 GLOBE).area.S 0).getD i ⟨0, 0⟩ =
        ⟨((Grid.fgrid 1 GLOBE).Xj.getD (i - 1) 0 + (Grid.fgrid 1 GLOBE).Xj.getD i 0) / 2, 0⟩) ∧
    (∀ p ∈ fillMidpoints (Grid.fgrid 1 GLOBE).Xj (Grid.fgrid 1 GLOBE).area.N
      (Grid.fgrid 1 GLOBE).area.S 0, p.i = 0) :=
  C2_boundary_builder (Grid.fgrid 1 GLOBE) 0 (by decide)

/-! ### C10: the first-gap law of the boundary builder -/

/-- C10: for any center-latitude sequence with at least two entries,
every interior boundary value equals `x[i] - (x[1] - x[0]) / 2` — the
offset is derived from the gap between the first two centers only —
and the interior values all coincide with the pairwise midpoints
`(x[i-1] + x[i]) / 2` exactly when the centers form an arithmetic
progression (constant consecutive difference `x[1] - x[0]`). -/

theorem C10_first_gap_boundaries (x : List ℚ) (a b : ℚ) (label : ℤ) (h2 : 2 ≤ x.length) :
    (∀ i, 1 ≤ i → i < x.length →
      (fillMidpoints x a b label).getD i ⟨0, 0⟩ =
        ⟨x.getD i 0 - (x.getD 1 0 - x.getD 0 0) / 2, label⟩) ∧
    ((∀ i, 1 ≤ i → i < x.length →
        (fillMidpoints x a b label).getD i ⟨0, 0⟩ =
          ⟨(x.getD (i - 1) 0 + x.getD i 0) / 2, label⟩) ↔
      (∀ i, i + 1 < x.length → x.getD (i + 1) 0 - x.getD i 0 = x.getD 1 0 - x.getD 0 0)) := by
  refine ⟨fun i h1 hi => fillMidpoints_getD_interior x a b label i h2 h1 hi, ?_, ?_⟩
  · intro hmid i hi
    have hm := hmid (i + 1) (by omega) (by omega)
    rw [fillMidpoints_getD_interior x a b label (i + 1) h2 (by omega) (by omega)] at hm
    simp only [Nat.add_sub_cancel, Midpoint.mk.injEq] at hm
    have := hm.1
    linarith
  · intro hap i h1 hi
    rw [fillMidpoints_getD_interior x a b label i h2 h1 hi]
    have ha := hap (i - 1) (by omega)
    have hii : i - 1 + 1 = i := by omega
    rw [hii] at ha
    simp only [Midpoint.mk.injEq]
    constructor
    · linarith
    · trivial

/-- C10 witness: the first-gap law instantiated on the non-arithmetic
sequence `[0, 1, 3]`. -/
theorem C10_first_gap_boundaries_witness :
    (∀ i, 1 ≤ i → i < ([0, 1, 3] : List ℚ).length →
      (fillMidpoints [0, 1, 3] 5 (-5) 1).getD i ⟨0, 0⟩ =
        ⟨([0, 1, 3] : List ℚ).getD i 0 -
          (([0, 1, 3] : List ℚ).getD 1 0 - ([0, 1, 3] : List ℚ).getD 0 0) / 2, 1⟩) ∧
    ((∀ i, 1 ≤ i → i < ([0, 1, 3] : List ℚ).length →
        (fillMidpoints [0, 1, 3] 5 (-5) 1).getD i ⟨0, 0⟩ =
          ⟨(([0, 1, 3] : List ℚ).getD (i - 1) 0 + ([0, 1, 3] : List ℚ).getD i 0) / 2, 1⟩) ↔
      (∀ i, i + 1 < ([0, 1, 3] : List ℚ).length →
        ([0, 1, 3] : List ℚ).getD (i + 1) 0 - ([0, 1, 3] : List ℚ).getD i 0 =
          ([0, 1, 3] : List ℚ).getD 1 0 - ([0, 1, 3] : List ℚ).getD 0 0)) :=
  C10_first_gap_boundaries [0, 1, 3] 5 (-5) 1 (by decide)

/-! ### Comparator and merge lemmas -/

theorem midLt_asymm (a b : Midpoint) (h : midLt a b) : ¬ midLt b a := by
  unfold midLt at *
  rcases h with h | ⟨he, hi⟩ <;> rintro (h' | ⟨h'e, h'i⟩) <;> first | linarith | omega

theorem midLt_trans (a b c : Midpoint) (hab : midLt a b) (hbc : midLt b c) : midLt a c := by
  unfold midLt at *
  rcases hab with h1 | ⟨he1, hi1⟩ <;> rcases hbc with h2 | ⟨he2, hi2⟩
  · left; linarith
  · left; linarith
  · left; linarith
  · right; exact ⟨by linarith, by omega⟩

theorem midLt_neg_trans (a b c : Midpoint) (h1 : ¬ midLt c b) (h2 : ¬ midLt b a) :
    ¬ midLt c a := by
  unfold midLt at *
  push_neg at h1 h2 ⊢
  constructor
  · linarith [h1.1, h2.1]
  · intro hca
    have hcb : c.x = b.x := by linarith [h1.1, h2.1]
    have hba : b.x = a.x := by linarith [h1.1, h2.1]
    have k1 := h1.2 hcb
    have k2 := h2.2 hba
    omega

theorem inplaceMerge_nil_left (t : List Midpoint) : inplaceMerge [] t = t := by
  simp [inplaceMerge]

theorem inplaceMerge_nil_right (s : List Midpoint) : inplaceMerge s [] = s := by
  cases s <;> simp [inplaceMerge]

theorem inplaceMerge_cons_cons (a b : Midpoint) (s t : List Midpoint) :
    inplaceMerge (a :: s) (b :: t) =
      if midLt b a then b :: inplaceMerge (a :: s) t
      else a :: inplaceMerge s (b :: t) := by
  simp [inplaceMerge]

theorem length_inplaceMerge (s t : List Midpoint) :
    (inplaceMerge s t).length = s.length + t.length := by
  induction s, t using inplaceMerge.induct <;> simp [inplaceMerge, *] <;> try omega

theorem mem_inplaceMerge (x : Midpoint) (s t : List Midpoint) :
    x ∈ inplaceMerge s t ↔ x ∈ s ∨ x ∈ t := by
  induction s, t using inplaceMerge.induct <;> simp [inplaceMerge, *] <;> try tauto

theorem sublist_left_inplaceMerge (s t : List Midpoint) : s.Sublist (inplaceMerge s t) := by
  induction s, t using inplaceMerge.induct with
  | case1 t => exact List.nil_sublist _
  | case2 s hne =>
    rw [inplaceMerge_nil_right]
  | case3 a s b t h ih =>
    rw [inplaceMerge_cons_cons, if_pos h]
    exact ih.cons b
  | case4 a s b t h ih =>
    rw [inplaceMerge_cons_cons, if_neg h]
    exact ih.cons₂ a

theorem sublist_right_inplaceMerge (s t : List Midpoint) : t.Sublist (inplaceMerge s t) := by
  induction s, t using inplaceMerge.induct with
  | case1 t =>
    rw [inplaceMerge_nil_left]
  | case2 s hne => exact List.nil_sublist _
  | case3 a s b t h ih =>
    rw [inplaceMerge_cons_cons, if_pos h]
    exact ih.cons₂ b
  | case4 a s b t h ih =>
    rw [inplaceMerge_cons_cons, if_neg h]
    exact ih.cons a

theorem pairwise_inplaceMerge :
    ∀ s t : List Midpoint, (s.Pairwise fun x y => ¬ midLt y x) →
      (t.Pairwise fun x y => ¬ midLt y x) →
      (inplaceMerge s t).Pairwise fun x y => ¬ midLt y x := by
  intro s t
  induction s, t using inplaceMerge.induct with
  | case1 t =>
    intro _ ht
    rw [inplaceMerge_nil_left]
    exact ht
  | case2 s hne =>
    intro hs _
    rw [inplaceMerge_nil_right]
    exact hs
  | case3 a s b t h ih =>
    intro hs ht
    rw [inplaceMerge_cons_cons, if_pos h]
    rw [List.pairwise_cons] at ht ⊢
    refine ⟨fun y hy => ?_, ih hs ht.2⟩
    rcases (mem_inplaceMerge y (a :: s) t).mp hy with hy1 | hy2
    · rcases List.mem_cons.mp hy1 with rfl | hys
      · exact midLt_asymm b y h
      · intro hyb
        exact (List.pairwise_cons.mp hs).1 y hys (midLt_trans y b a hyb h)
    · exact ht.1 y hy2
  | case4 a s b t h ih =>
    intro hs ht
    rw [inplaceMerge_cons_cons, if_neg h]
    rw [List.pairwise_cons] at hs ⊢
    refine ⟨fun y hy => ?_, ih hs.2 ht⟩
    rcases (mem_inplaceMerge y s (b :: t)).mp hy with hy1 | hy2
    · exact hs.1 y hy1
    · rcases List.mem_cons.mp hy2 with rfl | hyt
      · exact h
      · exact midLt_neg_trans a b y ((List.pairwise_cons.mp ht).1 y hyt) h

/-! ### C1: the stable boundary merge -/

/-- C1: for any two origin-tagged boundary sequences (source points
labelled 0, target points labelled 1), each monotonically
non-increasing in latitude, the `std::inplace_merge` with the
program's comparator returns a sequence of length
`|source| + |target|` that contains each input as a subsequence
(stable merge: relative order within each input is preserved) and is
sorted so that latitudes never increase and, at equal latitude, a
point never precedes one with a smaller label — in particular every
source-origin point at a given latitude precedes every target-origin
point at that latitude. -/

theorem C1_stable_merge (s t : List Midpoint)
    (hs0 : ∀ p ∈ s, p.i = 0) (ht1 : ∀ p ∈ t, p.i = 1)
    (hs : s.Pairwise fun p q => q.x ≤ p.x) (ht : t.Pairwise fun p q => q.x ≤ p.x) :
    (inplaceMerge s t).length = s.length + t.length ∧
    s.Sublist (inplaceMerge s t) ∧ t.Sublist (inplaceMerge s t) ∧
    (inplaceMerge s t).Pairwise fun p q => q.x ≤ p.x ∧ (p.x = q.x → p.i ≤ q.i) := by
  have hs' : s.Pairwise fun p q => ¬ midLt q p := by
    refine List.Pairwise.imp_of_mem ?_ hs
    intro p q hp hq hpq
    unfold midLt
    rintro (h | ⟨he, hi⟩)
    · linarith
    · have e1 := hs0 p hp
      have e2 := hs0 q hq
      omega
  have ht' : t.Pairwise fun p q => ¬ midLt q p := by
    refine List.Pairwise.imp_of_mem ?_ ht
    intro p q hp hq hpq
    unfold midLt
    rintro (h | ⟨he, hi⟩)
    · linarith
    · have e1 := ht1 p hp
      have e2 := ht1 q hq
      omega
  refine ⟨length_inplaceMerge s t, sublist_left_inplaceMerge s t,
    sublist_right_inplaceMerge s t, ?_⟩
  refine (pairwise_inplaceMerge s t hs' ht').imp ?_
  intro p q h
  unfold midLt at h
  push_neg at h
  exact ⟨h.1, fun he => h.2 he.symm⟩

/-- C1 witness: the merge law instantiated on the specification's
concrete scenario, source boundaries `[90, 0, -90]` (label 0) and
target boundaries `[90, 30, -30, -90]` (label 1). -/

theorem C1_stable_merge_witness :
    (inplaceMerge [⟨90, 0⟩, ⟨0, 0⟩, ⟨-90, 0⟩] [⟨90, 1⟩, ⟨30, 1⟩, ⟨-30, 1⟩, ⟨-90, 1⟩]).length
      = ([⟨90, 0⟩, ⟨0, 0⟩, ⟨-90, 0⟩] : List Midpoint).length
        + ([⟨90, 1⟩, ⟨30, 1⟩, ⟨-30, 1⟩, ⟨-90, 1⟩] : List Midpoint).length ∧
    List.Sublist [⟨90, 0⟩, ⟨0, 0⟩, ⟨-90, 0⟩]
      (inplaceMerge [⟨90, 0⟩, ⟨0, 0⟩, ⟨-90, 0⟩] [⟨90, 1⟩, ⟨30, 1⟩, ⟨-30, 1⟩, ⟨-90, 1⟩]) ∧
    List.Sublist [⟨90, 1⟩, ⟨30, 1⟩, ⟨-30, 1⟩, ⟨-90, 1⟩]
      (inplaceMerge [⟨90, 0⟩, ⟨0, 0⟩, ⟨-90, 0⟩] [⟨90, 1⟩, ⟨30, 1⟩, ⟨-30, 1⟩, ⟨-90, 1⟩]) ∧
    (inplaceMerge [⟨90, 0⟩, ⟨0, 0⟩, ⟨-90, 0⟩]
        [⟨90, 1⟩, ⟨30, 1⟩, ⟨-30, 1⟩, ⟨-90, 1⟩]).Pairwise
      fun p q => q.x ≤ p.x ∧ (p.x = q.x → p.i ≤ q.i) :=
  C1_stable_merge [⟨90, 0⟩, ⟨0, 0⟩, ⟨-90, 0⟩] [⟨90, 1⟩, ⟨30, 1⟩, ⟨-30, 1⟩, ⟨-90, 1⟩]
    (by decide) (by decide) (by decide) (by decide)
